import Mathlib

/-!
Shallow embedding of the SevSeg_MAX7219 seven-segment display driver
(SevSeg_MAX7219.h / SevSeg_MAX7219.cpp) and verification of its
natural-language specification.

Modelling conventions:
* `byte` values are represented as `Nat`; wherever the C source truncates
  (assignment of a wider intermediate to a `byte`, `pos++` wrap-around,
  the `& 0x0f` brightness mask) the model applies an explicit `% 256`
  or `&&& 0x0f`.
* A character argument of type `char` is represented by its byte value
  `0..255`; on the AVR target `char` is signed, so byte values `126..255`
  fail the test `c >= ' ' && c <= '}'` exactly as `32 ≤ c ∧ c ≤ 125`
  fails for them.
* The local variable `byte pat` in `lookup` is declared without an
  initializer and is only assigned inside the range-checked branch.  The
  indeterminate value it holds on the out-of-range path is modelled by an
  explicit `junk` parameter (one ambient byte value), threaded through
  every function that calls `lookup`.
* The display controller state (`digits`, `pos`, `autoscrolling`,
  `buf[8]`) is a record; the eight-byte array `buf` is modelled as a
  total function `Nat → Nat` (the claims under verification only concern
  indices `0..7`).
* `writeSPI(opcode, data)` bit-bangs a 16-bit register write; the model
  records the `(opcode, data)` pair on an append-only trace, so that
  "the data byte most recently sent to register r" is recoverable.
-/

namespace SevSeg

/-- The 94-entry font table `pattern[94]` of `SevSeg_MAX7219::lookup`,
indexed by `c - ' '` for codepoints `' '..'}'` (author bit order:
bit 7 = segment a, ..., bit 0 = segment p). -/
def fontTable : List Nat :=
  [ 0b00000000, 0b01100001, 0b01000100, 0b01101110, 0,           -- space ! " # $
    0,          0,          0b01000000, 0b10011100, 0b11110000,  -- % & ' ( )
    0,          0,          0,          0b00000010, 0b00000001,  -- * + , - .
    0,                                                           -- /
    0xfc, 0x60, 0xda, 0xf2, 0x66,                                -- 0-4
    0xb6, 0xbe, 0xe0, 0xfe, 0xf6,                                -- 5-9
    0,          0,          0,          0b00010010, 0,           -- : ; < = >
    0b11001011, 0b11111010,                                      -- ? @
    0b11101110, 0b11111110, 0b10011100, 0b01111010, 0b10011110,  -- A-E
    0b10001110, 0b10111100, 0b01101110, 0b01100000, 0b01110000,  -- F-J
    0b10101110, 0b00011100, 0b10101000, 0b11101100, 0b11111100,  -- K-O
    0b11001110, 0b11100110, 0b00001010, 0b10110110, 0b00011110,  -- P-T
    0b01111100, 0,          0,          0,          0b01110110,  -- U-Y
    0b11011010,                                                  -- Z
    0b10011100, 0b00000100, 0b11110000, 0,          0b00010000,  -- [ \ ] ^ _
    0b01000000,                                                  -- backtick
    0b11111010, 0b00111110, 0b00011010, 0b01111010, 0b11011110,  -- a-e
    0b10001110, 0b11110110, 0b00101110, 0b00001000, 0b00110000,  -- f-j
    0b10101110, 0b00001100, 0b10101000, 0b00101010, 0b00111010,  -- k-o
    0b11001110, 0b11100110, 0b00001010, 0b10110110, 0b00011110,  -- p-t
    0b00111000, 0,          0,          0,          0b01110110,  -- u-y
    0b11011010,                                                  -- z
    0b10011100, 0b00001100, 0b11110000 ]                         -- { | }

/-- `pat = (pat >> 1) | (pat << 7)` assigned back to a `byte`:
the intermediate is computed in `int` width and truncated to 8 bits
on assignment. -/
def rotr8 (p : Nat) : Nat := ((p >>> 1) ||| (p <<< 7)) % 256

/-- `SevSeg_MAX7219::lookup(char c, bool dp)`.  `junk` is the
indeterminate initial content of the uninitialized local `byte pat`,
which is returned unchanged on the out-of-range path. -/
def lookup (junk : Nat) (c : Nat) (dp : Bool) : Nat :=
  let pat := if 32 ≤ c ∧ c ≤ 125 then rotr8 (fontTable.getD (c - 32) 0)
             else junk % 256
  if dp then pat ||| 0x80 else pat

/-- The spec's description of the bit rotation, written from its words:
"rotate the 8-bit pattern right by one position (equivalently, move the
low bit to the high bit)". -/
def rorSpec (p : Nat) : Nat := p % 2 * 128 + p / 2

/-- Display controller state: the data members of class `SevSeg_MAX7219`
(`digits`, `pos`, `autoscrolling`, `buf[8]`), together with the trace of
register writes `(opcode, data)` emitted through `writeSPI` (most recent
last).  The pin numbers and the electrical bit-banging are glue outside
the modelled core. -/
structure MState where
  digits : Nat
  pos : Nat
  autoscrolling : Bool
  buf : Nat → Nat
  spi : List (Nat × Nat)

/-- Pointwise update of the modelled `buf` array. -/
def updf (f : Nat → Nat) (i v : Nat) : Nat → Nat :=
  fun j => if j = i then v else f j

/-- `SevSeg_MAX7219::writeSPI(byte opcode, byte data)`: emit one 16-bit
register write.  The model appends the `(opcode, data)` pair to the trace. -/
def writeSPI (st : MState) (opcode data : Nat) : MState :=
  { st with spi := st.spi ++ [(opcode, data)] }

/-- State after the constructor `SevSeg_MAX7219(din, clk, cs)`:
`digits(4), pos(0), autoscrolling(false)`; the member array `char buf[8]`
is left uninitialized, modelled by an arbitrary content `b`; no register
write has been emitted yet. -/
def initState (b : Nat → Nat) : MState :=
  { digits := 4, pos := 0, autoscrolling := false, buf := b, spi := [] }

/-- The loop of `SevSeg_MAX7219::clear`: iterations with counter `i` and
`m` iterations remaining, each doing `buf[i] = 0; writeSPI(i + 1, 0)`. -/
def clearGo : MState → Nat → Nat → MState
  | st, _, 0 => st
  | st, i, m + 1 =>
      clearGo (writeSPI { st with buf := updf st.buf i 0 } (i + 1) 0) (i + 1) m

/-- `SevSeg_MAX7219::clear`: zero all eight buffer entries and digit
registers, then reset the cursor. -/
def clear (st : MState) : MState :=
  { clearGo st 0 8 with pos := 0 }

/-- `SevSeg_MAX7219::display`: leave shutdown mode. -/
def display (st : MState) : MState :=
  writeSPI st 0x0c 1

/-- `SevSeg_MAX7219::noDisplay`: enter shutdown mode. -/
def noDisplay (st : MState) : MState :=
  writeSPI st 0x0c 0

/-- `SevSeg_MAX7219::autoScroll`. -/
def autoScroll (st : MState) : MState :=
  { st with autoscrolling := true }

/-- `SevSeg_MAX7219::noAutoScroll`. -/
def noAutoScroll (st : MState) : MState :=
  { st with autoscrolling := false }

/-- `SevSeg_MAX7219::testMode`. -/
def testMode (st : MState) : MState :=
  writeSPI st 0x0f 1

/-- `SevSeg_MAX7219::noTestMode`. -/
def noTestMode (st : MState) : MState :=
  writeSPI st 0x0f 0

/-- `SevSeg_MAX7219::brightness(byte b)`: `b &= 0x0f` then write the
intensity register. -/
def brightness (st : MState) (b : Nat) : MState :=
  writeSPI st 0x0a (b &&& 0x0f)

/-- `SevSeg_MAX7219::home`. -/
def home (st : MState) : MState :=
  { st with pos := 0 }

/-- `SevSeg_MAX7219::setCursor(byte x, byte y)`: `pos = x`; the second
coordinate is ignored. -/
def setCursor (st : MState) (x : Nat) : MState :=
  { st with pos := x % 256 }

/-- `SevSeg_MAX7219::begin(byte digits)`.  Note that the parameter
`digits` shadows the data member of the same name: the clamp
`if (digits < 4) digits = 4;` modifies only the parameter, which is then
sent to the scan-limit register; the member `digits` is left untouched. -/
def begin (st : MState) (n : Nat) : MState :=
  let d := if n < 4 then 4 else n
  let st := writeSPI st 0x0b d
  let st := writeSPI st 0x09 0x00
  let st := clear st
  let st := noTestMode st
  let st := brightness st 0x0f
  display st

/-- `SevSeg_MAX7219::displayChar(char digit, char value, bool dp)`:
look up the segment code, store it in the buffer and send it to digit
register `digit + 1`. -/
def displayChar (junk : Nat) (st : MState) (digit value : Nat) (dp : Bool) : MState :=
  let code := lookup junk value dp
  writeSPI { st with buf := updf st.buf digit code } (digit + 1) code

/-- The autoscroll shift loop of `SevSeg_MAX7219::write`: iterations with
counter `i` and `m` iterations remaining, each doing
`buf[i] = buf[i + 1]; writeSPI(i + 1, buf[i])`. -/
def scrollGo : MState → Nat → Nat → MState
  | st, _, 0 => st
  | st, i, m + 1 =>
      let v := st.buf (i + 1)
      scrollGo (writeSPI { st with buf := updf st.buf i v } (i + 1) v) (i + 1) m

/-- `SevSeg_MAX7219::write(uint8_t ch)`: returns the new state and the
`size_t` result. -/
def write (junk : Nat) (st : MState) (ch : Nat) : MState × Nat :=
  if ch = 46 then
    let p := if st.pos > 0 then st.pos - 1 else 0
    let v := st.buf p ||| 0x80
    (writeSPI { st with buf := updf st.buf p v } (p + 1) v, 1)
  else if st.autoscrolling = true ∧ st.pos = st.digits then
    let st := scrollGo st 0 (st.digits - 1)
    (displayChar junk st (st.digits - 1) ch false, 1)
  else
    let st' := displayChar junk st st.pos ch false
    ({ st' with pos := (st.pos + 1) % 256 }, 1)

/-- Mark the decimal-point flag of the most recently appended slot
(`decimal[y - 1] = true` in pass 1 of `displayText`, for `y > 0`). -/
def setLastDp : List (Nat × Bool) → List (Nat × Bool)
  | [] => []
  | [(c, _)] => [(c, true)]
  | p :: rest => p :: setLastDp rest

/-- Pass 1 of `SevSeg_MAX7219::displayText`: walk the capped input,
compacting each `'.'` onto the decimal flag of the most recently
appended slot.  A `'.'` with no preceding slot executes
`decimal[y - 1] = true` with `y == 0`, an out-of-bounds store, modelled
as `none`. -/
def compactGo : List Nat → List (Nat × Bool) → Option (List (Nat × Bool))
  | [], acc => some acc
  | c :: cs, acc =>
      if c = 46 then
        match acc with
        | [] => none
        | _ :: _ => compactGo cs (setLastDp acc)
      else compactGo cs (acc ++ [(c, false)])

/-- Pass 2 of `SevSeg_MAX7219::displayText`: write the compacted slots to
consecutive digit indices starting at `x`. -/
def renderFrom (junk : Nat) : MState → Nat → List (Nat × Bool) → MState
  | st, _, [] => st
  | st, x, s :: rest => renderFrom junk (displayChar junk st x s.1 s.2) (x + 1) rest

/-- `SevSeg_MAX7219::displayText(const char *text, bool rightjustify)`.
`text` is the list of byte values before the terminating NUL.  The input
is capped at 16 characters, compacted (pass 1), the slot count is capped
at `digits`, and each slot `x` is written to digit `x` (left-justified)
or `digits - y + x` (right-justified).  The result is `none` exactly when
pass 1 performs its out-of-bounds store. -/
def displayText (junk : Nat) (st : MState) (text : List Nat) (rightjustify : Bool) :
    Option MState :=
  match compactGo (text.take 16) [] with
  | none => none
  | some slots0 =>
      let slots := slots0.take st.digits
      let base := if rightjustify then st.digits - slots.length else 0
      some (renderFrom junk st base slots)

/-- The data byte most recently sent to register `o`: the last `(o, v)`
entry of the SPI trace. -/
def regVal (tr : List (Nat × Nat)) (o : Nat) : Option Nat :=
  ((tr.filter (fun p => p.1 == o)).getLast?).map Prod.snd

/-- The sequence of register writes emitted by the autoscroll shift loop
starting at counter `i` with `m` iterations left, reading buffer `b`. -/
def scrollTrace (b : Nat → Nat) : Nat → Nat → List (Nat × Nat)
  | _, 0 => []
  | i, m + 1 => (i + 1, b (i + 1)) :: scrollTrace b (i + 1) m

/-- The public operations of the controller, as invokable by the
embedding application. -/
inductive Op where
  | opBegin : Nat → Op
  | opClear : Op
  | opDisplay : Op
  | opNoDisplay : Op
  | opAutoScroll : Op
  | opNoAutoScroll : Op
  | opTestMode : Op
  | opNoTestMode : Op
  | opBrightness : Nat → Op
  | opHome : Op
  | opSetCursor : Nat → Op
  | opWrite : Nat → Op
  | opDisplayChar : Nat → Nat → Bool → Op
  | opDisplayText : List Nat → Bool → Op

/-- One controller operation as a state transition.  For `opDisplayText`
the `none` result (the pass-1 out-of-bounds store, excluded by `opOk`)
is mapped to the unchanged state. -/
def step (junk : Nat) (st : MState) : Op → MState
  | .opBegin n => begin st n
  | .opClear => clear st
  | .opDisplay => display st
  | .opNoDisplay => noDisplay st
  | .opAutoScroll => autoScroll st
  | .opNoAutoScroll => noAutoScroll st
  | .opTestMode => testMode st
  | .opNoTestMode => noTestMode st
  | .opBrightness b => brightness st b
  | .opHome => home st
  | .opSetCursor x => setCursor st x
  | .opWrite ch => (write junk st ch).1
  | .opDisplayChar d v dp => displayChar junk st d v dp
  | .opDisplayText t rj => (displayText junk st t rj).getD st

/-- The operation keeps every touched digit index and cursor position
within the physical range 0..7. -/
def opOk (st : MState) : Op → Bool
  | .opWrite _ => decide (st.pos ≤ 8) && decide (st.digits ≤ 8)
  | .opDisplayChar d _ _ => decide (d < 8)
  | .opSetCursor x => decide (x ≤ 8)
  | .opDisplayText t _ => (compactGo (t.take 16) []).isSome && decide (st.digits ≤ 8)
  | _ => true

/-- Every operation of the sequence is in range at the state where it
executes. -/
def runOk (junk : Nat) : MState → List Op → Bool
  | _, [] => true
  | st, op :: ops => opOk st op && runOk junk (step junk st op) ops

/-- Execute a sequence of operations. -/
def run (junk : Nat) : MState → List Op → MState
  | st, [] => st
  | st, op :: ops => run junk (step junk st op) ops

/-- The mirror invariant: each display-buffer entry equals the data byte
most recently sent to the corresponding digit register (registers 1..8),
for every digit register that has been written at all. -/
def mirrors (st : MState) : Prop :=
  ∀ i, i < 8 → regVal st.spi (i + 1) = none ∨ regVal st.spi (i + 1) = some (st.buf i)

set_option maxRecDepth 4096 in
theorem rotr8_eq_rorSpec_fin : ∀ p : Fin 256, rotr8 p.val = rorSpec p.val := by
  decide

theorem rotr8_eq_rorSpec (p : Nat) (h : p < 256) : rotr8 p = rorSpec p :=
  rotr8_eq_rorSpec_fin ⟨p, h⟩

theorem fontTable_mem_lt : ∀ e ∈ fontTable, e < 256 := by decide

theorem fontTable_getD_lt (i : Nat) : fontTable.getD i 0 < 256 := by
  rcases h : fontTable[i]? with _ | e
  · simp [List.getD, h]
  · have he : e ∈ fontTable := List.getElem?_mem h
    simp [List.getD, h]
    exact fontTable_mem_lt e he

theorem lookup_in_range (junk c : Nat) (dp : Bool) (h1 : 32 ≤ c) (h2 : c ≤ 125) :
    lookup junk c dp =
      (if dp then rotr8 (fontTable.getD (c - 32) 0) ||| 0x80
       else rotr8 (fontTable.getD (c - 32) 0)) := by
  simp [lookup, h1, h2]

theorem lookup_out_range (junk c : Nat) (dp : Bool) (h : ¬ (32 ≤ c ∧ c ≤ 125)) :
    lookup junk c dp = (if dp then junk % 256 ||| 0x80 else junk % 256) := by
  simp only [lookup, if_neg h]

theorem scrollTrace_congr (m : Nat) : ∀ (b1 b2 : Nat → Nat) (i : Nat),
    (∀ j, i < j → b1 j = b2 j) → scrollTrace b1 i m = scrollTrace b2 i m := by
  induction m with
  | zero => intro b1 b2 i _; rfl
  | succ m ih =>
      intro b1 b2 i h
      simp only [scrollTrace]
      rw [h (i + 1) (by omega), ih b1 b2 (i + 1) (fun j hj => h j (by omega))]

theorem scrollTrace_eq_map (m : Nat) : ∀ (b : Nat → Nat) (i : Nat),
    scrollTrace b i m = (List.range m).map (fun k => (i + k + 1, b (i + k + 1))) := by
  induction m with
  | zero => intro b i; rfl
  | succ m ih =>
      intro b i
      simp only [scrollTrace, ih]
      rw [List.range_succ_eq_map]
      simp only [List.map_cons, List.map_map]
      congr 1
      refine List.map_congr_left fun a _ => ?_
      simp only [Function.comp_apply, Nat.succ_eq_add_one]
      have h : i + 1 + a = i + (a + 1) := by omega
      rw [h]

theorem scrollGo_pos (m : Nat) : ∀ (st : MState) (i : Nat),
    (scrollGo st i m).pos = st.pos := by
  induction m with
  | zero => intro st i; rfl
  | succ m ih => intro st i; simp only [scrollGo]; rw [ih]; rfl

theorem scrollGo_digits (m : Nat) : ∀ (st : MState) (i : Nat),
    (scrollGo st i m).digits = st.digits := by
  induction m with
  | zero => intro st i; rfl
  | succ m ih => intro st i; simp only [scrollGo]; rw [ih]; rfl

theorem scrollGo_autoscrolling (m : Nat) : ∀ (st : MState) (i : Nat),
    (scrollGo st i m).autoscrolling = st.autoscrolling := by
  induction m with
  | zero => intro st i; rfl
  | succ m ih => intro st i; simp only [scrollGo]; rw [ih]; rfl

theorem scrollGo_buf (m : Nat) : ∀ (st : MState) (i j : Nat),
    (scrollGo st i m).buf j =
      if i ≤ j ∧ j < i + m then st.buf (j + 1) else st.buf j := by
  induction m with
  | zero =>
      intro st i j
      have h : ¬ (i ≤ j ∧ j < i + 0) := by omega
      simp only [scrollGo, h, if_false]
  | succ m ih =>
      intro st i j
      simp only [scrollGo]
      rw [ih]
      simp only [writeSPI, updf]
      by_cases hji : j = i
      · subst hji
        have h1 : ¬ (j + 1 ≤ j ∧ j < j + 1 + m) := by omega
        have h2 : j ≤ j ∧ j < j + (m + 1) := by omega
        simp [h1, h2]
      · by_cases h1 : i + 1 ≤ j ∧ j < i + 1 + m
        · have h2 : i ≤ j ∧ j < i + (m + 1) := by omega
          have h3 : ¬ (j + 1 = i) := by omega
          simp [h1, h2, h3]
        · have h2 : ¬ (i ≤ j ∧ j < i + (m + 1)) := by omega
          simp [h1, h2, hji]

theorem scrollGo_spi (m : Nat) : ∀ (st : MState) (i : Nat),
    (scrollGo st i m).spi = st.spi ++ scrollTrace st.buf i m := by
  induction m with
  | zero => intro st i; simp [scrollGo, scrollTrace]
  | succ m ih =>
      intro st i
      simp only [scrollGo]
      rw [ih]
      simp only [writeSPI, scrollTrace]
      have hcong : ∀ j, i + 1 < j →
          updf st.buf i (st.buf (i + 1)) j = st.buf j := by
        intro j hj
        have h : ¬ (j = i) := by omega
        simp [updf, h]
      rw [scrollTrace_congr m (updf st.buf i (st.buf (i + 1))) st.buf (i + 1) hcong]
      simp

/-- C1: the claim says `lookup(c, false)` returns the blank pattern 0x00 for
every codepoint outside `' '..'}'`.  In the source, `byte pat` is declared
without an initializer and is assigned only inside the range-checked branch,
so the out-of-range path returns whatever indeterminate byte `pat` happened
to hold (here the junk byte 0x55), not 0x00. -/
theorem lookup_out_of_range_returns_junk :
    lookup 0x55 126 false = 0x55 ∧ lookup 0x55 126 false ≠ 0 := by
  constructor
  · rfl
  · decide

/-- C2: the claim says that after `begin(n)` the stored digit count equals
`max(n, 4)`, in particular `begin(8)` leaves it at 8.  In the source the
parameter `byte digits` of `begin` shadows the data member `digits`, so the
clamp only affects the value sent to the scan-limit register and the member
keeps its constructor value 4: after `begin(8)` on a fresh controller the
stored digit count is 4, not 8. -/
theorem begin_keeps_member_digits :
    (begin (initState (fun _ => 0)) 8).digits = 4 ∧
    regVal (begin (initState (fun _ => 0)) 8).spi 0x0b = some 8 := by
  constructor <;> rfl

/-- `begin` never modifies the member `digits`, whatever the argument. -/
theorem begin_digits_eq (st : MState) (n : Nat) : (begin st n).digits = st.digits := by
  have h : ∀ m stx i, (clearGo stx i m).digits = stx.digits := by
    intro m
    induction m with
    | zero => intro stx i; rfl
    | succ m ih => intro stx i; simp only [clearGo]; rw [ih]; rfl
  simp only [begin, display, brightness, noTestMode, clear, writeSPI]
  rw [h]

/-- C3: the claim says a leading `'.'` is silently dropped with no
out-of-range buffer access, rendering like the same string without the dot.
In the source, `displayText(".")` executes `decimal[y - 1] = true` with
`y == 0`, a store before the start of the local array `decimal[16]`
(modelled as the `none` result), while `displayText("")` completes normally
and leaves the state unchanged. -/
theorem displayText_leading_dot_oob :
    displayText 0 (initState (fun _ => 0)) [46] false = none ∧
    displayText 0 (initState (fun _ => 0)) [] false =
      some (initState (fun _ => 0)) := by
  constructor <;> rfl

/-- C4: for a non-dot character with autoscroll enabled and the cursor at
`digits`, `write` shifts the buffer left by one (entry `i` takes the old
entry `i + 1` for `i < digits - 1`), re-sends the shifted digit registers
`1..digits-1` in ascending order, places `lookup(ch, false)` at index
`digits - 1` (register `digits`), and leaves the cursor unchanged. -/
theorem write_autoscroll_shifts (junk : Nat) (st st' : MState) (ch : Nat)
    (hch : ch ≠ 46) (hauto : st.autoscrolling = true) (hpos : st.pos = st.digits)
    (hd : 1 ≤ st.digits) (hst' : st' = (write junk st ch).1) :
    (∀ i, i < st.digits - 1 → st'.buf i = st.buf (i + 1)) ∧
    st'.buf (st.digits - 1) = lookup junk ch false ∧
    st'.pos = st.pos ∧
    st'.spi = st.spi
      ++ (List.range (st.digits - 1)).map (fun i => (i + 1, st.buf (i + 1)))
      ++ [(st.digits, lookup junk ch false)] := by
  subst hst'
  simp only [write, if_neg hch, if_pos (And.intro hauto hpos), displayChar, writeSPI,
    scrollGo_digits]
  refine ⟨?_, ?_, ?_, ?_⟩
  · intro i hi
    have hne : ¬ (i = st.digits - 1) := by omega
    simp only [updf, if_neg hne]
    rw [scrollGo_buf]
    have hcond : 0 ≤ i ∧ i < 0 + (st.digits - 1) := by omega
    rw [if_pos hcond]
  · simp [updf]
  · rw [scrollGo_pos]
  · rw [scrollGo_spi, scrollTrace_eq_map]
    have h1 : st.digits - 1 + 1 = st.digits := by omega
    simp only [Nat.zero_add, h1, List.append_assoc]

/-- Concrete instance of `write_autoscroll_shifts`: a full 4-digit display
holding bytes 10,11,12,13 receives the character 'A' (65) with autoscroll
on. -/
theorem write_autoscroll_shifts_witness :
    (∀ i, i < (4:Nat) - 1 →
      ((write 0 (MState.mk 4 4 true (fun j => j + 10) []) 65).1).buf i =
        (fun j => j + 10) (i + 1)) ∧
    ((write 0 (MState.mk 4 4 true (fun j => j + 10) []) 65).1).buf (4 - 1) =
      lookup 0 65 false ∧
    ((write 0 (MState.mk 4 4 true (fun j => j + 10) []) 65).1).pos = 4 ∧
    ((write 0 (MState.mk 4 4 true (fun j => j + 10) []) 65).1).spi = []
      ++ (List.range (4 - 1)).map (fun i => (i + 1, (fun j => j + 10) (i + 1)))
      ++ [(4, lookup 0 65 false)] :=
  write_autoscroll_shifts 0 (MState.mk 4 4 true (fun j => j + 10) []) _ 65
    (by decide) rfl rfl (by decide) rfl

/-- C5: for every controller state, `write('.')` ORs 0x80 into the buffer
entry at `pos - 1` (natural subtraction, i.e. clamped to 0 when the cursor
is at 0), re-sends exactly that digit register, leaves all other entries
and the cursor unchanged, and returns 1. -/
theorem write_dot (junk : Nat) (st : MState) :
    (write junk st 46).1.buf (st.pos - 1) = st.buf (st.pos - 1) ||| 0x80 ∧
    (∀ j, j ≠ st.pos - 1 → (write junk st 46).1.buf j = st.buf j) ∧
    (write junk st 46).1.spi =
      st.spi ++ [(st.pos - 1 + 1, st.buf (st.pos - 1) ||| 0x80)] ∧
    (write junk st 46).1.pos = st.pos ∧
    (write junk st 46).2 = 1 := by
  have hp : (if st.pos > 0 then st.pos - 1 else 0) = st.pos - 1 := by
    split <;> omega
  simp only [write, if_pos rfl, writeSPI, hp]
  refine ⟨?_, ?_, rfl, rfl, rfl⟩
  · simp [updf]
  · intro j hj
    simp [updf, hj]

theorem renderFrom_buf (junk : Nat) : ∀ (l : List (Nat × Bool)) (st : MState) (x i : Nat),
    (renderFrom junk st x l).buf i =
      if x ≤ i ∧ i < x + l.length then
        lookup junk (l.getD (i - x) (0, false)).1 (l.getD (i - x) (0, false)).2
      else st.buf i := by
  intro l
  induction l with
  | nil =>
      intro st x i
      simp only [renderFrom, List.length_nil]
      rw [if_neg (by omega)]
  | cons s rest ih =>
      intro st x i
      simp only [renderFrom, List.length_cons]
      rw [ih]
      by_cases h1 : x + 1 ≤ i ∧ i < x + 1 + rest.length
      · rw [if_pos h1, if_pos (by omega)]
        have hix : i - x = (i - (x + 1)) + 1 := by omega
        rw [hix, List.getD_cons_succ]
      · rw [if_neg h1]
        by_cases h2 : i = x
        · subst h2
          rw [if_pos (by omega)]
          simp [displayChar, writeSPI, updf, Nat.sub_self]
        · rw [if_neg (by omega)]
          simp [displayChar, writeSPI, updf, h2]

theorem renderFrom_pos (junk : Nat) : ∀ (l : List (Nat × Bool)) (st : MState) (x : Nat),
    (renderFrom junk st x l).pos = st.pos := by
  intro l
  induction l with
  | nil => intro st x; rfl
  | cons s rest ih => intro st x; simp only [renderFrom]; rw [ih]; rfl

theorem renderFrom_digits (junk : Nat) : ∀ (l : List (Nat × Bool)) (st : MState) (x : Nat),
    (renderFrom junk st x l).digits = st.digits := by
  intro l
  induction l with
  | nil => intro st x; rfl
  | cons s rest ih => intro st x; simp only [renderFrom]; rw [ih]; rfl

theorem renderFrom_autoscrolling (junk : Nat) :
    ∀ (l : List (Nat × Bool)) (st : MState) (x : Nat),
    (renderFrom junk st x l).autoscrolling = st.autoscrolling := by
  intro l
  induction l with
  | nil => intro st x; rfl
  | cons s rest ih => intro st x; simp only [renderFrom]; rw [ih]; rfl

/-- C6: `displayText` caps the input at 16 characters, compacts dots onto
the previous slot's decimal flag, caps the compacted slot count at
`digits`, and writes compacted slot `i` to digit `base + i` where `base`
is 0 when left-justified and `digits - slotCount` when right-justified;
every other buffer entry is untouched (slots beyond `digits` are dropped,
never wrapped). -/
theorem displayText_pipeline (junk : Nat) (st : MState) (text : List Nat) (rj : Bool)
    (slots0 : List (Nat × Bool)) (k base : Nat)
    (h : compactGo (text.take 16) [] = some slots0)
    (hk : k = min st.digits slots0.length)
    (hbase : base = if rj then st.digits - k else 0) :
    ∃ st', displayText junk st text rj = some st' ∧
      ∀ i, st'.buf i =
        if base ≤ i ∧ i < base + k then
          lookup junk ((slots0.take st.digits).getD (i - base) (0, false)).1
                      ((slots0.take st.digits).getD (i - base) (0, false)).2
        else st.buf i := by
  subst hk
  subst hbase
  have hlen : (slots0.take st.digits).length = min st.digits slots0.length :=
    List.length_take _ _
  refine ⟨renderFrom junk st
      (if rj then st.digits - (slots0.take st.digits).length else 0)
      (slots0.take st.digits), ?_, ?_⟩
  · simp only [displayText, h]
  · intro i
    rw [renderFrom_buf, hlen]

/-- Concrete instance: `displayText("12345678", left-justified)` on the
4-digit controller renders only `"1234"` into digits 0..3 and leaves
digits 4..7 untouched. -/
theorem displayText_pipeline_witness :
    ∃ st', displayText 0 (initState (fun _ => 99)) [49, 50, 51, 52, 53, 54, 55, 56]
        false = some st' ∧
      ∀ i, st'.buf i =
        if 0 ≤ i ∧ i < 0 + 4 then
          lookup 0 ((([(49, false), (50, false), (51, false), (52, false), (53, false),
              (54, false), (55, false), (56, false)].take
                (initState (fun _ => 99)).digits).getD (i - 0) (0, false)).1)
            ((([(49, false), (50, false), (51, false), (52, false), (53, false),
              (54, false), (55, false), (56, false)].take
                (initState (fun _ => 99)).digits).getD (i - 0) (0, false)).2)
        else (initState (fun _ => 99)).buf i :=
  displayText_pipeline 0 (initState (fun _ => 99)) [49, 50, 51, 52, 53, 54, 55, 56]
    false [(49, false), (50, false), (51, false), (52, false), (53, false),
      (54, false), (55, false), (56, false)] 4 0 rfl rfl rfl

/-- C7: for every codepoint in `' '..'}'`, `lookup(c, false)` is the 8-bit
rotate-right-by-one of the font table entry at index `c - ' '` (the low
bit of the entry becomes the high bit of the result). -/
theorem lookup_rotates (junk c : Nat) (h1 : 32 ≤ c) (h2 : c ≤ 125) :
    lookup junk c false = rorSpec (fontTable.getD (c - 32) 0) := by
  rw [lookup_in_range junk c false h1 h2, if_neg (by decide)]
  exact rotr8_eq_rorSpec _ (fontTable_getD_lt _)

/-- Concrete instance of `lookup_rotates` at `c = '0'` (48): the raw table
entry 0xfc rotates to 0x7e. -/
theorem lookup_rotates_witness :
    32 ≤ 48 ∧ 48 ≤ 125 ∧ lookup 7 48 false = rorSpec (fontTable.getD (48 - 32) 0) :=
  ⟨by decide, by decide, lookup_rotates 7 48 (by decide) (by decide)⟩

/-- C8: for every codepoint in `'!'..'}'`, `lookup(c, false)` does not
depend on the indeterminate junk byte (it is a deterministic pure function
of `c`), and `lookup(c, true) = lookup(c, false) | 0x80`. -/
theorem lookup_dp_or (j1 j2 c : Nat) (h1 : 33 ≤ c) (h2 : c ≤ 125) :
    lookup j1 c false = lookup j2 c false ∧
    lookup j1 c true = lookup j1 c false ||| 0x80 := by
  have h1' : 32 ≤ c := by omega
  rw [lookup_in_range j1 c false h1' h2, lookup_in_range j2 c false h1' h2,
      lookup_in_range j1 c true h1' h2]
  simp

/-- Concrete instance of `lookup_dp_or` at `c = 'A'` (65) with two
different junk bytes. -/
theorem lookup_dp_or_witness :
    lookup 3 65 false = lookup 200 65 false ∧
    lookup 3 65 true = lookup 3 65 false ||| 0x80 :=
  lookup_dp_or 3 200 65 (by decide) (by decide)

/-- C10: whenever `displayText` completes (its pass 1 does not hit the
leading-dot out-of-bounds store), it leaves the cursor position, the
autoscroll flag and the digit count unchanged; only the display buffer
and the SPI trace are modified. -/
theorem displayText_frame (junk : Nat) (st st' : MState) (text : List Nat) (rj : Bool)
    (h : displayText junk st text rj = some st') :
    st'.pos = st.pos ∧ st'.autoscrolling = st.autoscrolling ∧
    st'.digits = st.digits := by
  simp only [displayText] at h
  rcases hc : compactGo (text.take 16) [] with _ | slots0
  · rw [hc] at h
    cases h
  · rw [hc] at h
    simp only [Option.some.injEq] at h
    subst h
    exact ⟨renderFrom_pos junk _ st _, renderFrom_autoscrolling junk _ st _,
      renderFrom_digits junk _ st _⟩

/-- Concrete instance of `displayText_frame` for the text `"1"`. -/
theorem displayText_frame_witness :
    (renderFrom 0 (initState (fun _ => 0)) 0 [(49, false)]).pos
        = (initState (fun _ => 0)).pos ∧
    (renderFrom 0 (initState (fun _ => 0)) 0 [(49, false)]).autoscrolling
        = (initState (fun _ => 0)).autoscrolling ∧
    (renderFrom 0 (initState (fun _ => 0)) 0 [(49, false)]).digits
        = (initState (fun _ => 0)).digits :=
  displayText_frame 0 (initState (fun _ => 0)) _ [49] false rfl

theorem regVal_append (tr : List (Nat × Nat)) (o v o' : Nat) :
    regVal (tr ++ [(o, v)]) o' = if o' = o then some v else regVal tr o' := by
  by_cases h : o' = o
  · subst h
    simp [regVal, List.filter_append, List.getLast?_concat]
  · have h2 : o ≠ o' := fun e => h e.symm
    simp [regVal, List.filter_append, h, h2]

theorem mirrors_of_fields (st st' : MState) (hspi : st'.spi = st.spi)
    (hbuf : st'.buf = st.buf) (h : mirrors st) : mirrors st' := by
  intro i hi
  rw [hspi, hbuf]
  exact h i hi

theorem mirrors_writePair (st : MState) (d v : Nat) (h : mirrors st) :
    mirrors (writeSPI { st with buf := updf st.buf d v } (d + 1) v) := by
  intro i hi
  simp only [writeSPI, regVal_append]
  by_cases hid : i = d
  · subst hid
    right
    rw [if_pos rfl]
    simp [updf]
  · rw [if_neg (by omega)]
    rcases h i hi with h0 | h0
    · exact Or.inl h0
    · right
      rw [h0]
      simp [updf, hid]

theorem mirrors_writeCtrl (st : MState) (o v : Nat) (ho : 8 < o) (h : mirrors st) :
    mirrors (writeSPI st o v) := by
  intro i hi
  simp only [writeSPI, regVal_append]
  rw [if_neg (by omega)]
  exact h i hi

theorem mirrors_clearGo (m : Nat) : ∀ (st : MState) (i : Nat),
    mirrors st → mirrors (clearGo st i m) := by
  induction m with
  | zero => intro st i h; exact h
  | succ m ih =>
      intro st i h
      simp only [clearGo]
      exact ih _ _ (mirrors_writePair st i 0 h)

theorem mirrors_clear (st : MState) (h : mirrors st) : mirrors (clear st) :=
  mirrors_of_fields (clearGo st 0 8) (clear st) rfl rfl (mirrors_clearGo 8 st 0 h)

theorem mirrors_scrollGo (m : Nat) : ∀ (st : MState) (i : Nat),
    mirrors st → mirrors (scrollGo st i m) := by
  induction m with
  | zero => intro st i h; exact h
  | succ m ih =>
      intro st i h
      simp only [scrollGo]
      exact ih _ _ (mirrors_writePair st i (st.buf (i + 1)) h)

theorem mirrors_displayChar (junk : Nat) (st : MState) (d v : Nat) (dp : Bool)
    (h : mirrors st) : mirrors (displayChar junk st d v dp) :=
  mirrors_writePair st d (lookup junk v dp) h

theorem mirrors_begin (st : MState) (n : Nat) (h : mirrors st) :
    mirrors (begin st n) := by
  simp only [begin, display, brightness, noTestMode]
  apply mirrors_writeCtrl _ 0x0c 1 (by omega)
  apply mirrors_writeCtrl _ 0x0a _ (by omega)
  apply mirrors_writeCtrl _ 0x0f 0 (by omega)
  apply mirrors_clear
  apply mirrors_writeCtrl _ 0x09 0x00 (by omega)
  exact mirrors_writeCtrl _ 0x0b _ (by omega) h

theorem mirrors_write (junk : Nat) (st : MState) (ch : Nat) (h : mirrors st) :
    mirrors (write junk st ch).1 := by
  by_cases hch : ch = 46
  · subst hch
    simp only [write, if_pos rfl]
    exact mirrors_writePair st _ _ h
  · simp only [write, if_neg hch]
    by_cases hA : st.autoscrolling = true ∧ st.pos = st.digits
    · rw [if_pos hA]
      exact mirrors_displayChar junk _ _ _ _ (mirrors_scrollGo _ st 0 h)
    · rw [if_neg hA]
      exact mirrors_of_fields (displayChar junk st st.pos ch false) _ rfl rfl
        (mirrors_displayChar junk st st.pos ch false h)

theorem mirrors_renderFrom (junk : Nat) : ∀ (l : List (Nat × Bool)) (st : MState) (x : Nat),
    mirrors st → mirrors (renderFrom junk st x l) := by
  intro l
  induction l with
  | nil => intro st x h; exact h
  | cons s rest ih =>
      intro st x h
      simp only [renderFrom]
      exact ih _ _ (mirrors_displayChar junk st x s.1 s.2 h)

theorem mirrors_displayTextStep (junk : Nat) (st : MState) (t : List Nat) (rj : Bool)
    (h : mirrors st) : mirrors ((displayText junk st t rj).getD st) := by
  simp only [displayText]
  rcases hc : compactGo (t.take 16) [] with _ | slots0
  · exact h
  · exact mirrors_renderFrom junk _ st _ h

theorem mirrors_step (junk : Nat) (st : MState) (op : Op) (h : mirrors st) :
    mirrors (step junk st op) := by
  cases op with
  | opBegin n => exact mirrors_begin st n h
  | opClear => exact mirrors_clear st h
  | opDisplay => exact mirrors_writeCtrl st 0x0c 1 (by omega) h
  | opNoDisplay => exact mirrors_writeCtrl st 0x0c 0 (by omega) h
  | opAutoScroll => exact mirrors_of_fields st _ rfl rfl h
  | opNoAutoScroll => exact mirrors_of_fields st _ rfl rfl h
  | opTestMode => exact mirrors_writeCtrl st 0x0f 1 (by omega) h
  | opNoTestMode => exact mirrors_writeCtrl st 0x0f 0 (by omega) h
  | opBrightness b => exact mirrors_writeCtrl st 0x0a (b &&& 0x0f) (by omega) h
  | opHome => exact mirrors_of_fields st _ rfl rfl h
  | opSetCursor x => exact mirrors_of_fields st _ rfl rfl h
  | opWrite ch => exact mirrors_write junk st ch h
  | opDisplayChar d v dp => exact mirrors_displayChar junk st d v dp h
  | opDisplayText t rj => exact mirrors_displayTextStep junk st t rj h

/-- C9: starting from a freshly constructed controller, for every sequence
of operations whose digit indices and cursor positions stay within 0..7,
the display buffer mirrors the digit registers after the run: entry `i`
equals the data byte most recently sent to digit register `i + 1`, for
every digit register that has been written. -/
theorem run_mirrors (junk : Nat) (b : Nat → Nat) (ops : List Op)
    (_hok : runOk junk (initState b) ops = true) :
    mirrors (run junk (initState b) ops) := by
  have hgen : ∀ (l : List Op) (st : MState), mirrors st → mirrors (run junk st l) := by
    intro l
    induction l with
    | nil => intro st h; exact h
    | cons op rest ih => intro st h; exact ih _ (mirrors_step junk st op h)
  apply hgen
  intro i _
  exact Or.inl rfl

/-- Concrete instance of `run_mirrors`: clear, stream the text `"1."`,
then directly address digit 3. -/
theorem run_mirrors_witness :
    runOk 7 (initState (fun _ => 3)) [Op.opClear, Op.opWrite 49, Op.opWrite 46,
        Op.opDisplayChar 3 65 false] = true ∧
    mirrors (run 7 (initState (fun _ => 3)) [Op.opClear, Op.opWrite 49, Op.opWrite 46,
        Op.opDisplayChar 3 65 false]) :=
  ⟨by decide, run_mirrors 7 (fun _ => 3) _ (by decide)⟩

end SevSeg
